import Mathlib

/-!
Verification of the stdio MCP bridge of this repository.

The repository contains two overlapping implementations of the bridge:

* the improved Electron main process (`src/unnamed/part_001`): `startMCPServer`,
  `initializeMCPServer` (handshake with reserved id 0), and `callMCPTool` with a
  per-call stdout `dataHandler` that splits the accumulated data on newlines,
  parses each complete line and settles only on a line whose `id` strictly
  equals the call's request id;
* the older variant (`src/app/src/main.js`): `callMCPTool` with a per-call
  `dataHandler` that attempts `JSON.parse` of the whole accumulated buffer and
  settles on the first successful parse, without comparing ids.

This file gives a shallow embedding of both variants.  JavaScript strings are
`List Char`; `JSON.parse` is a platform primitive (it is not code of this
repository), so the embedding takes it as an explicit function parameter
`parse : List Char → Option Json` where `none` models a thrown `SyntaxError`.
Concrete theorems instantiate it with `testParse`, a finite table that agrees
with `JSON.parse` on every string actually fed to it in those theorems.
-/

/-- Model of a JavaScript JSON value as produced by `JSON.parse`. -/
inductive Json where
  | null : Json
  | bool (b : Bool) : Json
  | num (n : Int) : Json
  | str (s : String) : Json
  | arr (elems : List Json) : Json
  | obj (fields : List (String × Json)) : Json

/-- JavaScript property access `o.key` on a parsed value: a lookup in an
object's field list, `undefined` (here `none`) on everything else. -/
def Json.getField : Json → String → Option Json
  | .obj fields, key => fields.lookup key
  | _, _ => none

/-- JavaScript truthiness of a JSON value. -/
def Json.truthy : Json → Bool
  | .null => false
  | .bool b => b
  | .num n => n != 0
  | .str s => !(s == "")
  | .arr _ => true
  | .obj _ => true

/-- Truthiness of a possibly-`undefined` value (`none` is `undefined`). -/
def truthyOpt : Option Json → Bool
  | none => false
  | some j => j.truthy

/-- JavaScript `a || b` on possibly-undefined values. -/
def jsOr (a b : Option Json) : Option Json :=
  match a with
  | some v => if v.truthy then some v else b
  | none => b

/-- The `id` of a response frame when it is a number, as compared by
`response.id === request.id` in both `dataHandler`s (strict equality with the
numeric request id can only hold for a numeric `id` field). -/
def frameId (j : Json) : Option Int :=
  match j.getField "id" with
  | some (.num n) => some n
  | _ => none

/-- Whitespace for the model of JavaScript `String.prototype.trim`. -/
def isWsChar (c : Char) : Bool :=
  c = ' ' || c = '\t' || c = '\n' || c = '\r'

/-- Model of JavaScript `line.trim()`. -/
def trimChars (l : List Char) : List Char :=
  ((l.dropWhile isWsChar).reverse.dropWhile isWsChar).reverse

/-- Prepend to the first segment of a split (how `splitNl` treats one more
leading character or an appended stream prefix). -/
def consHead (x : List Char) : List (List Char) → List (List Char)
  | [] => [x]
  | y :: ys => (x ++ y) :: ys

/-- Model of JavaScript `s.split("\n")`: the list of newline-free segments,
always non-empty, whose concatenation interleaved with `'\n'` is the input. -/
def splitNl : List Char → List (List Char)
  | [] => [[]]
  | c :: cs =>
    if c = '\n' then [] :: splitNl cs
    else consHead [c] (splitNl cs)

/-- All segments of a split except the final one: the complete lines
(`lines[0] .. lines[lines.length-2]` in the JavaScript). -/
def initSegs : List (List Char) → List (List Char)
  | [] => []
  | [_] => []
  | x :: y :: ys => x :: initSegs (y :: ys)

/-- The final segment of a split: the trailing not-yet-terminated fragment
(`lines[lines.length-1]` in the JavaScript). -/
def lastSeg : List (List Char) → List Char
  | [] => []
  | [x] => x
  | _ :: y :: ys => lastSeg (y :: ys)

/-- Frames produced from a list of complete lines: the per-line body of the
`callMCPTool` `dataHandler` in `src/unnamed/part_001` (trim, skip empty,
`JSON.parse`, skip a line whose parse throws). -/
def parsedLines (parse : List Char → Option Json) (segs : List (List Char)) : List Json :=
  segs.filterMap (fun l => if trimChars l = [] then none else parse (trimChars l))

/-- The complete lines of a stream: all newline-terminated segments. -/
def completeLines (s : List Char) : List (List Char) :=
  initSegs (splitNl s)

/-- One decode pass of the `part_001` `dataHandler`, viewed as a codec:
append the chunk, split on newlines, parse every complete line, keep the
trailing fragment (`responseData = lines[lines.length - 1]`). -/
def decodePass (parse : List Char → Option Json) (buf chunk : List Char) :
    List Json × List Char :=
  (parsedLines parse (completeLines (buf ++ chunk)), lastSeg (splitNl (buf ++ chunk)))

/-- Incremental decoding of a whole sequence of `data` chunks, accumulating
the frames of every pass, starting from the empty buffer. -/
def decodeStream (parse : List Char → Option Json) (chunks : List (List Char)) :
    List Json × List Char :=
  chunks.foldl
    (fun acc c => (acc.1 ++ (decodePass parse acc.2 c).1, (decodePass parse acc.2 c).2))
    ([], [])

/-- How a `callMCPTool` invocation completes.  The first three constructors
settle the caller's promise (`resolve`, reject with the remote error, reject
with `"MCP call timeout"`).  `timeoutCrashed` is a completion that settles
nothing: the timeout callback fired after the `close` handler had already run
`mcpProcess = null`, so `mcpProcess.stdout.removeListener(...)` threw a
`TypeError` after `isComplete = true` but before `reject` — the call ignores
all later data yet its promise is never resolved nor rejected. -/
inductive CallOutcome where
  | resolved (payload : Option Json)
  | rejectedRemote (msg : Json)
  | rejectedTimeout
  | timeoutCrashed

/-- Whether a completion actually settles the caller's promise: every
completion does except `timeoutCrashed`, whose `TypeError` (only logged by the
global `uncaughtException` handler) escapes before `reject` runs. -/
def settlesCall : CallOutcome → Bool
  | .timeoutCrashed => false
  | _ => true

/-- The value used in `reject(new Error(response.error.message ||
response.error.data || "Unknown MCP error"))` in `part_001`. -/
def remoteErrVal (j : Json) : Json :=
  (jsOr (jsOr ((j.getField "error").bind (fun e => e.getField "message"))
              ((j.getField "error").bind (fun e => e.getField "data")))
        (some (.str "Unknown MCP error"))).getD (.str "Unknown MCP error")

/-- How the `part_001` `dataHandler` settles the call once it has found the
frame matching its own request id: reject on a truthy `error` member, else
resolve with `response.result`. -/
def settleOfFrame (j : Json) : CallOutcome :=
  if truthyOpt (j.getField "error") then .rejectedRemote (remoteErrVal j)
  else .resolved (j.getField "result")

/-- The scan of the complete lines performed by one `part_001` `dataHandler`
pass: trim, skip empty, skip unparseable (per-line `try`/`catch`), skip frames
whose id differs from the call's own request id, settle on the first match. -/
def scanLines (parse : List Char → Option Json) (reqId : Int) :
    List (List Char) → Option CallOutcome
  | [] => none
  | l :: rest =>
    if trimChars l = [] then scanLines parse reqId rest
    else
      match parse (trimChars l) with
      | none => scanLines parse reqId rest
      | some j =>
        if frameId j = some reqId then some (settleOfFrame j)
        else scanLines parse reqId rest

/-- One in-flight `callMCPTool` invocation of `part_001`: its request id, its
own accumulation buffer `responseData`, and its settlement.  `outcome = none`
means pending; a settled handler models `isComplete = true` together with the
listener having been removed. -/
structure Handler where
  reqId : Int
  buf : List Char
  outcome : Option CallOutcome

/-- The `part_001` `dataHandler` reacting to one `data` chunk. -/
def callDataHandler (parse : List Char → Option Json) (h : Handler) (chunk : List Char) :
    Handler :=
  match h.outcome with
  | some _ => h
  | none =>
    match scanLines parse h.reqId (completeLines (h.buf ++ chunk)) with
    | some out => { h with outcome := some out }
    | none => { h with buf := lastSeg (splitNl (h.buf ++ chunk)) }

/-- The `part_001` bridge state: the module-level `mcpProcess` handle
(`procAlive = false` once the `close` handler has run `mcpProcess = null`) and
every registered per-call stdout listener. -/
structure Bridge where
  procAlive : Bool
  handlers : List Handler

/-- Events the bridge reacts to: a stdout `data` chunk (delivered to every
registered listener), the timeout timer of call `i` firing, and process
`close`. -/
inductive Ev where
  | data (chunk : List Char)
  | timerFire (i : Nat)
  | close

/-- Replace the element at one position of a list. -/
def modifyIdx {α : Type} : List α → Nat → (α → α) → List α
  | [], _, _ => []
  | a :: l, 0, f => f a :: l
  | a :: l, n + 1, f => a :: modifyIdx l n f

/-- The `part_001` per-call timeout callback, with `alive` the state of the
module-level `mcpProcess` handle when the timer fires: `if (!isComplete) {
isComplete = true; mcpProcess.stdout.removeListener(...); reject(new
Error("MCP call timeout")) }`.  With the handle live this marks the call
complete and rejects.  With the handle already nulled by the `close` handler,
`mcpProcess.stdout` throws a `TypeError` after `isComplete = true` and before
`reject`: the call is complete but never settles (`timeoutCrashed`).  When the
call is already complete the guard makes the callback a no-op either way. -/
def fireTimeout (alive : Bool) (h : Handler) : Handler :=
  match h.outcome with
  | none =>
    if alive then { h with outcome := some .rejectedTimeout }
    else { h with outcome := some .timeoutCrashed }
  | some _ => h

/-- One bridge step of `part_001`: a `data` event reaches every listener; a
timer affects only its own call (and crashes without settling it if the
handle has been cleared); `close` only logs and clears the handle. -/
def stepEv (parse : List Char → Option Json) (b : Bridge) : Ev → Bridge
  | .data c => { b with handlers := b.handlers.map (fun h => callDataHandler parse h c) }
  | .timerFire i => { b with handlers := modifyIdx b.handlers i (fireTimeout b.procAlive) }
  | .close => { b with procAlive := false }

/-- Run a sequence of bridge events. -/
def runEvs (parse : List Char → Option Json) (b : Bridge) (evs : List Ev) : Bridge :=
  evs.foldl (stepEv parse) b

/-- Run a sequence of stdout `data` chunks. -/
def runData (parse : List Char → Option Json) (b : Bridge) (cs : List (List Char)) : Bridge :=
  runEvs parse b (cs.map Ev.data)

/-- A freshly registered pending call. -/
def mkHandler (n : Int) : Handler := ⟨n, [], none⟩

/-- A live bridge with one freshly registered pending call per id. -/
def mkBridge (ids : List Int) : Bridge := ⟨true, ids.map mkHandler⟩

/-- The settlement state of the `i`-th registered call (`none` when there is
no such call). -/
def outcomeAt (b : Bridge) (i : Nat) : Option (Option CallOutcome) :=
  b.handlers[i]?.map Handler.outcome

/-- Every frame carried by the complete lines of a stream. -/
def allFrames (parse : List Char → Option Json) (s : List Char) : List Json :=
  parsedLines parse (completeLines s)

/-- The first frame of the stream whose id equals the given request id. -/
def firstOwn (parse : List Char → Option Json) (rid : Int) (s : List Char) : Option Json :=
  (allFrames parse s).find? (fun j => decide (frameId j = some rid))

/-- Per-call timeout of `part_001` `callMCPTool` (ms). -/
def callTimeoutMs : Nat := 45000

/-- Per-call timeout of the `src/app/src/main.js` variant (ms). -/
def mainCallTimeoutMs : Nat := 30000

/-- Handshake timeout of `initializeMCPServer` (ms). -/
def handshakeTimeoutMs : Nat := 10000

/-- Readiness polling interval of `callMCPTool` (ms). -/
def pollIntervalMs : Nat := 500

/-- Readiness polling attempt bound of `callMCPTool`. -/
def maxPollAttempts : Nat := 15

/-- Delay between the stderr banner and the handshake attempt (ms). -/
def bannerDelayMs : Nat := 2000

/-- How the `initializeMCPServer` promise settles. -/
inductive InitOutcome where
  | ready
  | timedOut

/-- State of the `initializeMCPServer` handshake: its own `responseData`
buffer (never pruned), its promise, whether its stdout listener is still
registered, and whether the `notifications/initialized` notification has been
written to stdin. -/
structure InitState where
  buf : List Char
  promise : Option InitOutcome
  listenerOn : Bool
  notified : Bool

/-- The line loop of the `initializeMCPServer` `dataHandler`.  The whole loop
sits inside a single `try`, so the first line whose `JSON.parse` throws aborts
the entire pass (`false`); a parsed frame resolves iff `response.id === 0`,
with no look at `response.error`. -/
def initScan (parse : List Char → Option Json) : List (List Char) → Bool
  | [] => false
  | l :: rest =>
    if trimChars l = [] then initScan parse rest
    else
      match parse (trimChars l) with
      | none => false
      | some j => if frameId j = some 0 then true else initScan parse rest

/-- The `initializeMCPServer` `dataHandler` reacting to one stdout chunk.
On an id-0 frame it removes the listener, writes the completion notification
and resolves; otherwise it only accumulates (the buffer is never pruned). -/
def initDataHandler (parse : List Char → Option Json) (st : InitState) (chunk : List Char) :
    InitState :=
  if st.listenerOn then
    if initScan parse (splitNl (st.buf ++ chunk)) then
      { buf := st.buf ++ chunk, promise := some (st.promise.getD .ready),
        listenerOn := false, notified := true }
    else { st with buf := st.buf ++ chunk }
  else st

/-- The handshake timeout callback: rejects (if still pending) but does not
remove the stdout listener. -/
def initTimeoutFire (st : InitState) : InitState :=
  { st with promise := some (st.promise.getD .timedOut) }

/-- Handshake state right after the `initialize` request is written. -/
def initState0 : InitState := ⟨[], none, true, false⟩

/-- Feed a sequence of stdout chunks to the handshake handler. -/
def initRun (parse : List Char → Option Json) (chunks : List (List Char)) : InitState :=
  chunks.foldl (initDataHandler parse) initState0

/-- JavaScript `x?.[0]`: array head, object property `"0"`, or a one-character
string on strings; `undefined` otherwise. -/
def indexZero : Json → Option Json
  | .arr xs => xs.head?
  | .obj fs => fs.lookup "0"
  | .str s => s.data.head?.map (fun c => .str (String.mk [c]))
  | _ => none

/-- `response.result?.content?.[0]?.text` in the `main.js` variant. -/
def contentText (j : Json) : Option Json :=
  (((j.getField "result").bind (fun r => r.getField "content")).bind indexZero).bind
    (fun x => x.getField "text")

/-- JavaScript string coercion `String(v)` as applied by `JSON.parse` to a
non-string argument.  Array coercion is approximated by the empty string; no
theorem of this file evaluates that branch (the protocol's `text` member is a
string). -/
def jsCoerce : Json → List Char
  | .str s => s.data
  | .num n => (toString n).data
  | .bool true => "true".data
  | .bool false => "false".data
  | .null => "null".data
  | .arr _ => []
  | .obj _ => "[object Object]".data

/-- `new Error(response.error.message)` in the `main.js` variant. -/
def mainRemoteErrVal (j : Json) : Json :=
  ((j.getField "error").bind (fun e => e.getField "message")).getD .null

/-- One in-flight call of the `main.js` variant: unlike `part_001` the
listener's removal and the promise's settlement are separate effects. -/
structure MHandler where
  reqId : Int
  buf : List Char
  outcome : Option CallOutcome
  listenerOn : Bool

/-- A promise settles only once: later `resolve`/`reject` calls are no-ops. -/
def settleOnce (cur : Option CallOutcome) (o : CallOutcome) : Option CallOutcome :=
  some (cur.getD o)

/-- The `main.js` `dataHandler`: accumulate, `JSON.parse` the whole buffer,
and on the first successful parse remove the listener and settle — with no
comparison of `response.id` against the call's request id.  On a truthy
`result?.content?.[0]?.text` it resolves with `JSON.parse` of that text; if
that inner parse throws, the listener is already removed but the promise is
never settled. -/
def mainCallDataHandler (parse : List Char → Option Json) (h : MHandler) (chunk : List Char) :
    MHandler :=
  if h.listenerOn then
    match parse (h.buf ++ chunk) with
    | none => { h with buf := h.buf ++ chunk }
    | some j =>
      if truthyOpt (j.getField "error") then
        { h with buf := h.buf ++ chunk, listenerOn := false,
                 outcome := settleOnce h.outcome (.rejectedRemote (mainRemoteErrVal j)) }
      else
        match contentText j with
        | some c =>
          if c.truthy then
            match parse (jsCoerce c) with
            | some pc =>
              { h with buf := h.buf ++ chunk, listenerOn := false,
                       outcome := settleOnce h.outcome (.resolved (some pc)) }
            | none => { h with buf := h.buf ++ chunk, listenerOn := false }
          else
            { h with buf := h.buf ++ chunk, listenerOn := false,
                     outcome := settleOnce h.outcome (.resolved (j.getField "result")) }
        | none =>
          { h with buf := h.buf ++ chunk, listenerOn := false,
                   outcome := settleOnce h.outcome (.resolved (j.getField "result")) }
  else h

/-- The `main.js` call timeout: `reject(new Error("MCP call timeout"))` only —
the stdout listener stays registered. -/
def mainTimeoutFire (h : MHandler) : MHandler :=
  { h with outcome := settleOnce h.outcome .rejectedTimeout }

/-- A stdout chunk reaches every registered `main.js` listener. -/
def mainBridgeData (parse : List Char → Option Json) (hs : List MHandler) (chunk : List Char) :
    List MHandler :=
  hs.map (fun h => mainCallDataHandler parse h chunk)

/-- Feed a sequence of chunks to one `main.js` handler. -/
def mainFold (parse : List Char → Option Json) (h : MHandler) (cs : List (List Char)) : MHandler :=
  cs.foldl (mainCallDataHandler parse) h

/-- A fresh pending `main.js` call. -/
def mkMHandler (n : Int) : MHandler := ⟨n, [], none, true⟩

/-- Result of the `callMCPTool` prologue of `part_001`: entry rejection when
the handle is already null, `NotReadyError` rejection after the polling bound,
a `TypeError` thrown by `mcpProcess.isReady()` on a cleared handle at poll
instant `k` (which escapes the `async` promise executor, so the promise never
settles), or proceeding to write the request after `k` polls. -/
inductive CallStart where
  | notRunning
  | notReady
  | crashed (k : Nat)
  | proceed (k : Nat)

/-- The readiness-polling loop `while (!mcpProcess.isReady() && attempts <
maxAttempts)` together with the `if (!mcpProcess.isReady())` re-check after
it.  `alive k` / `ready k` give `mcpProcess !== null` / `serverReady` at the
k-th condition evaluation (one evaluation per 500 ms sleep); fuel counts the
remaining allowed sleeps, starting at 15. -/
def pollLoopFuel (alive ready : Nat → Bool) : Nat → Nat → CallStart
  | k, 0 =>
    if !(alive k) then .crashed k
    else if ready k then .proceed k
    else .notReady
  | k, fuel + 1 =>
    if !(alive k) then .crashed k
    else if ready k then .proceed k
    else pollLoopFuel alive ready (k + 1) fuel

/-- The `callMCPTool` prologue: the `if (!mcpProcess)` entry guard followed by
the bounded readiness poll. -/
def callStart (alive ready : Nat → Bool) : CallStart :=
  if !(alive 0) then .notRunning
  else pollLoopFuel alive ready 0 maxPollAttempts

/-- Whether the prologue goes on to write a request frame to stdin. -/
def sendsRequest : CallStart → Bool
  | .proceed _ => true
  | _ => false

/-- Whether the caller's promise ever settles.  `crashed` models the
`TypeError` of calling `isReady()` on `null` escaping the `async` executor:
with no `try`/`catch` in `callMCPTool`, Node turns it into an unhandled
rejection of the executor's inner promise and the outer promise is never
resolved nor rejected. -/
def startSettles : CallStart → Bool
  | .crashed _ => false
  | _ => true

/-- Request-id generation of `part_001`: `Date.now() + Math.floor(Math.random()
* 1000)`, as a function of the clock value and the random draw. -/
def genCallId (now rand : Nat) : Int := (now : Int) + rand

/-- Request-id generation of the `main.js` variant: `Date.now()`. -/
def genCallIdMain (now : Nat) : Int := now

/-- Whether `needle` is an initial run of `hay`. -/
def beginsWith : List Char → List Char → Bool
  | [], _ => true
  | _ :: _, [] => false
  | a :: as, b :: bs => a = b && beginsWith as bs

/-- JavaScript `hay.includes(needle)`. -/
def containsSub (needle : List Char) : List Char → Bool
  | [] => needle.isEmpty
  | b :: bs => beginsWith needle (b :: bs) || containsSub needle bs

/-- The stderr banner test of `startMCPServer`, evaluated per chunk. -/
def bannerMatch (s : List Char) : Bool :=
  (containsSub ("FastMCP".data) s || containsSub ("Starting MCP server".data) s)
    && (containsSub ("Server name".data) s || containsSub ("Echo Test Server".data) s
        || containsSub ("Simple Test Server".data) s)

/-- Supervisor state of `startMCPServer`: whether a banner match has scheduled
the 2-second `setTimeout` callback, and the `serverReady` flag read by
`mcpProcess.isReady()`. -/
structure SupState where
  bannerSeen : Bool
  serverReady : Bool

/-- Supervisor events: a stderr chunk (banner detection), a stdout chunk
(only logged at this level), and the scheduled banner callback firing with the
handshake's success (`serverReady = true` is assigned only after `await
initializeMCPServer()` resolves). -/
inductive SupEv where
  | stderrData (s : List Char)
  | stdoutData (s : List Char)
  | bannerFire (initOk : Bool)

/-- One supervisor step.  A `bannerFire` with no scheduled callback cannot
occur and is modelled as a no-op. -/
def supStep (st : SupState) : SupEv → SupState
  | .stderrData s => if bannerMatch s then { st with bannerSeen := true } else st
  | .stdoutData _ => st
  | .bannerFire ok => if st.bannerSeen && ok then { st with serverReady := true } else st

/-- Supervisor state right after `spawn`. -/
def supState0 : SupState := ⟨false, false⟩

/-- Run the supervisor over a trace of events. -/
def runSup (evs : List SupEv) : SupState :=
  evs.foldl supStep supState0

/-- Double-quote character. -/
def quoteChar : Char := Char.ofNat 34

/-- Opening brace character. -/
def lbraceChar : Char := Char.ofNat 123

/-- Closing brace character. -/
def rbraceChar : Char := Char.ofNat 125

/-- A JSON string token for an escape-free string. -/
def jstr (k : String) : List Char := quoteChar :: k.data ++ [quoteChar]

/-- The wire line carrying the response with id 101 and result 7. -/
def line101 : List Char :=
  lbraceChar :: jstr "jsonrpc" ++ ':' :: jstr "2.0" ++ ',' :: jstr "id" ++ ':' :: "101".data
    ++ ',' :: jstr "result" ++ ':' :: "7".data ++ [rbraceChar]

/-- The parse of `line101`. -/
def frame101 : Json :=
  .obj [("jsonrpc", .str "2.0"), ("id", .num 101), ("result", .num 7)]

/-- The wire line carrying the response with id 102 and result 5. -/
def line102 : List Char :=
  lbraceChar :: jstr "jsonrpc" ++ ':' :: jstr "2.0" ++ ',' :: jstr "id" ++ ':' :: "102".data
    ++ ',' :: jstr "result" ++ ':' :: "5".data ++ [rbraceChar]

/-- The parse of `line102`. -/
def frame102 : Json :=
  .obj [("jsonrpc", .str "2.0"), ("id", .num 102), ("result", .num 5)]

/-- The wire line carrying the successful handshake response (id 0). -/
def line0ok : List Char :=
  lbraceChar :: jstr "jsonrpc" ++ ':' :: jstr "2.0" ++ ',' :: jstr "id" ++ ':' :: "0".data
    ++ ',' :: jstr "result" ++ ':' :: lbraceChar :: rbraceChar :: [rbraceChar]

/-- The parse of `line0ok`. -/
def frame0ok : Json :=
  .obj [("jsonrpc", .str "2.0"), ("id", .num 0), ("result", .obj [])]

/-- The wire line carrying an error response to the handshake (id 0). -/
def line0err : List Char :=
  lbraceChar :: jstr "jsonrpc" ++ ':' :: jstr "2.0" ++ ',' :: jstr "id" ++ ':' :: "0".data
    ++ ',' :: jstr "error" ++ ':' :: lbraceChar
    :: (jstr "message" ++ ':' :: jstr "boom") ++ rbraceChar :: [rbraceChar]

/-- The parse of `line0err`. -/
def frame0err : Json :=
  .obj [("jsonrpc", .str "2.0"), ("id", .num 0), ("error", .obj [("message", .str "boom")])]

/-- The finite `JSON.parse` table used by concrete theorems. -/
def testTable : List (List Char × Json) :=
  [(line101, frame101), (line102, frame102), (line0ok, frame0ok), (line0err, frame0err)]

/-- A concrete stand-in for `JSON.parse`, agreeing with it on every string the
concrete theorems feed to it: the four fixture lines parse to their frames
(after the surrounding-whitespace trim `JSON.parse` itself performs), and
every other string fed in those theorems is invalid JSON and fails. -/
def testParse (s : List Char) : Option Json :=
  testTable.lookup (trimChars s)

theorem initSegs_cons_cons (x y : List Char) (ys : List (List Char)) :
    initSegs (x :: y :: ys) = x :: initSegs (y :: ys) := rfl

theorem lastSeg_cons_cons (x y : List Char) (ys : List (List Char)) :
    lastSeg (x :: y :: ys) = lastSeg (y :: ys) := rfl

theorem consHead_ne_nil (x : List Char) (l : List (List Char)) : consHead x l ≠ [] := by
  cases l <;> simp [consHead]

theorem splitNl_ne_nil (s : List Char) : splitNl s ≠ [] := by
  cases s with
  | nil => simp [splitNl]
  | cons c cs =>
    simp only [splitNl]
    split
    · simp
    · exact consHead_ne_nil _ _

theorem splitNl_no_nl (s : List Char) : ∀ seg ∈ splitNl s, '\n' ∉ seg := by
  induction s with
  | nil => simp [splitNl]
  | cons c cs ih =>
    by_cases hc : c = '\n'
    · subst hc
      simp only [splitNl, if_pos rfl]
      intro seg h
      rcases List.mem_cons.mp h with h | h
      · simp [h]
      · exact ih seg h
    · simp only [splitNl, if_neg hc]
      cases h : splitNl cs with
      | nil => exact absurd h (splitNl_ne_nil cs)
      | cons y ys =>
        intro seg hs
        simp only [consHead] at hs
        rcases List.mem_cons.mp hs with h1 | h1
        · subst h1
          intro hm
          rcases List.mem_append.mp hm with hm | hm
          · simp at hm
            exact hc hm.symm
          · exact ih y (by simp [h]) hm
        · exact ih seg (by simp [h, h1])

theorem splitNl_of_no_nl (s : List Char) (h : '\n' ∉ s) : splitNl s = [s] := by
  induction s with
  | nil => simp [splitNl]
  | cons c cs ih =>
    simp only [List.mem_cons, not_or] at h
    simp only [splitNl, if_neg (fun hc : c = '\n' => h.1 hc.symm)]
    rw [ih h.2]
    simp [consHead]

theorem initSegs_append (X Y : List (List Char)) (hY : Y ≠ []) :
    initSegs (X ++ Y) = X ++ initSegs Y := by
  induction X with
  | nil => simp
  | cons x xs ih =>
    cases hxy : xs ++ Y with
    | nil => exact absurd (List.append_eq_nil.mp hxy).2 hY
    | cons z zs =>
      have h1 : (x :: xs) ++ Y = x :: z :: zs := by rw [List.cons_append, hxy]
      rw [h1, initSegs_cons_cons, ← hxy, ih]
      rfl

theorem lastSeg_append (X Y : List (List Char)) (hY : Y ≠ []) :
    lastSeg (X ++ Y) = lastSeg Y := by
  induction X with
  | nil => simp
  | cons x xs ih =>
    cases hxy : xs ++ Y with
    | nil => exact absurd (List.append_eq_nil.mp hxy).2 hY
    | cons z zs =>
      have h1 : (x :: xs) ++ Y = x :: z :: zs := by rw [List.cons_append, hxy]
      rw [h1, lastSeg_cons_cons, ← hxy, ih]

theorem lastSeg_mem : ∀ (l : List (List Char)), l ≠ [] → lastSeg l ∈ l
  | [], h => absurd rfl h
  | [x], _ => by simp [lastSeg]
  | x :: y :: ys, _ => by
    rw [lastSeg_cons_cons]
    exact List.mem_cons_of_mem x (lastSeg_mem (y :: ys) (by simp))

theorem lastSeg_splitNl_no_nl (s : List Char) : '\n' ∉ lastSeg (splitNl s) :=
  splitNl_no_nl s _ (lastSeg_mem _ (splitNl_ne_nil s))

theorem splitNl_append (a b : List Char) :
    splitNl (a ++ b) = initSegs (splitNl a) ++ consHead (lastSeg (splitNl a)) (splitNl b) := by
  induction a with
  | nil =>
    cases h : splitNl b with
    | nil => exact absurd h (splitNl_ne_nil b)
    | cons x xs => simp [splitNl, initSegs, lastSeg, consHead, h]
  | cons c cs ih =>
    by_cases hc : c = '\n'
    · subst hc
      have h1 : ('\n' :: cs) ++ b = '\n' :: (cs ++ b) := rfl
      rw [h1]
      simp only [splitNl, if_pos rfl]
      rw [ih]
      cases h : splitNl cs with
      | nil => exact absurd h (splitNl_ne_nil cs)
      | cons x xs => simp [initSegs_cons_cons, lastSeg_cons_cons]
    · have h1 : (c :: cs) ++ b = c :: (cs ++ b) := rfl
      rw [h1]
      simp only [splitNl, if_neg hc]
      rw [ih]
      cases h : splitNl cs with
      | nil => exact absurd h (splitNl_ne_nil cs)
      | cons x xs =>
        cases xs with
        | nil =>
          cases hb : splitNl b with
          | nil => exact absurd hb (splitNl_ne_nil b)
          | cons z zs => simp [initSegs, lastSeg, consHead]
        | cons y ys =>
          simp [initSegs_cons_cons, lastSeg_cons_cons, consHead]

theorem splitNl_append_no_nl (x b : List Char) (h : '\n' ∉ x) :
    splitNl (x ++ b) = consHead x (splitNl b) := by
  rw [splitNl_append, splitNl_of_no_nl x h]
  simp [initSegs, lastSeg]

theorem splitNl_line_cons (line rest : List Char) (h : '\n' ∉ line) :
    splitNl (line ++ '\n' :: rest) = line :: splitNl rest := by
  have h1 : ('\n' :: rest : List Char) = ['\n'] ++ rest := rfl
  rw [h1, splitNl_append_no_nl line _ h]
  have h2 : splitNl (['\n'] ++ rest) = [] :: splitNl rest := by
    simp [splitNl]
  rw [h2]
  cases hr : splitNl rest with
  | nil => exact absurd hr (splitNl_ne_nil rest)
  | cons z zs => simp [consHead]

theorem completeLines_append (a b : List Char) :
    completeLines (a ++ b) =
      completeLines a ++ completeLines (lastSeg (splitNl a) ++ b) := by
  simp only [completeLines]
  rw [splitNl_append, initSegs_append _ _ (consHead_ne_nil _ _),
    splitNl_append_no_nl _ b (lastSeg_splitNl_no_nl a)]

theorem lastSeg_splitNl_append (a b : List Char) :
    lastSeg (splitNl (a ++ b)) = lastSeg (splitNl (lastSeg (splitNl a) ++ b)) := by
  rw [splitNl_append, lastSeg_append _ _ (consHead_ne_nil _ _),
    splitNl_append_no_nl _ b (lastSeg_splitNl_no_nl a)]

theorem parsedLines_append (parse : List Char → Option Json) (A B : List (List Char)) :
    parsedLines parse (A ++ B) = parsedLines parse A ++ parsedLines parse B := by
  simp only [parsedLines, List.filterMap_append]

theorem decodePass_split (parse : List Char → Option Json) (buf a b : List Char) :
    decodePass parse buf (a ++ b) =
      ((decodePass parse buf a).1 ++ (decodePass parse (decodePass parse buf a).2 b).1,
        (decodePass parse (decodePass parse buf a).2 b).2) := by
  have h1 : buf ++ (a ++ b) = (buf ++ a) ++ b := (List.append_assoc buf a b).symm
  show (parsedLines parse (completeLines (buf ++ (a ++ b))), lastSeg (splitNl (buf ++ (a ++ b))))
    = _
  rw [h1, completeLines_append (buf ++ a) b, lastSeg_splitNl_append (buf ++ a) b,
    parsedLines_append]
  rfl

theorem decodeStream_foldl (parse : List Char → Option Json) (chunks : List (List Char))
    (frames : List Json) (buf : List Char) (hb : '\n' ∉ buf) :
    chunks.foldl
        (fun acc c => (acc.1 ++ (decodePass parse acc.2 c).1, (decodePass parse acc.2 c).2))
        (frames, buf)
      = (frames ++ (decodePass parse buf chunks.flatten).1,
          (decodePass parse buf chunks.flatten).2) := by
  induction chunks generalizing frames buf with
  | nil =>
    simp only [List.foldl_nil, List.flatten_nil]
    rw [decodePass, List.append_nil, completeLines, splitNl_of_no_nl _ hb]
    simp [initSegs, lastSeg, parsedLines]
  | cons c cs ih =>
    rw [List.foldl_cons]
    show List.foldl
        (fun acc c => (acc.1 ++ (decodePass parse acc.2 c).1, (decodePass parse acc.2 c).2))
        (frames ++ (decodePass parse buf c).1, (decodePass parse buf c).2) cs
      = (frames ++ (decodePass parse buf (c :: cs).flatten).1,
          (decodePass parse buf (c :: cs).flatten).2)
    rw [ih (frames ++ (decodePass parse buf c).1) ((decodePass parse buf c).2)
        (by show '\n' ∉ lastSeg (splitNl (buf ++ c)); exact lastSeg_splitNl_no_nl _),
      List.flatten_cons, decodePass_split parse buf c cs.flatten]
    simp [List.append_assoc]

theorem scanLines_append (parse : List Char → Option Json) (rid : Int) (A B : List (List Char)) :
    scanLines parse rid (A ++ B) =
      (match scanLines parse rid A with
        | some o => some o
        | none => scanLines parse rid B) := by
  induction A with
  | nil => simp [scanLines]
  | cons l ls ih =>
    by_cases ht : trimChars l = []
    · simp only [List.cons_append, scanLines, if_pos ht]
      exact ih
    · simp only [List.cons_append, scanLines, if_neg ht]
      cases hp : parse (trimChars l) with
      | none => exact ih
      | some j =>
        by_cases hid : frameId j = some rid
        · simp [hid]
        · simp only [if_neg hid]
          exact ih

theorem scanLines_eq_find (parse : List Char → Option Json) (rid : Int)
    (segs : List (List Char)) :
    scanLines parse rid segs =
      ((parsedLines parse segs).find? (fun j => decide (frameId j = some rid))).map
        settleOfFrame := by
  induction segs with
  | nil => simp [scanLines, parsedLines]
  | cons l ls ih =>
    by_cases ht : trimChars l = []
    · simp only [scanLines, if_pos ht, parsedLines, List.filterMap_cons, if_pos ht]
      exact ih
    · cases hp : parse (trimChars l) with
      | none =>
        simp only [scanLines, if_neg ht, hp, parsedLines, List.filterMap_cons]
        exact ih
      | some j =>
        have key : parsedLines parse (l :: ls) = j :: parsedLines parse ls := by
          simp [parsedLines, List.filterMap_cons, ht, hp]
        by_cases hid : frameId j = some rid
        · have hd : decide (frameId j = some rid) = true := by simp [hid]
          simp [scanLines, if_neg ht, hp, if_pos hid, key, List.find?_cons, hd]
        · have hd : decide (frameId j = some rid) = false := by simp [hid]
          simp only [scanLines, if_neg ht, hp, if_neg hid, key, List.find?_cons, hd]
          exact ih

theorem callDataHandler_settled (parse : List Char → Option Json) (h : Handler)
    (c : List Char) (hs : h.outcome.isSome) : callDataHandler parse h c = h := by
  cases ho : h.outcome with
  | none => rw [ho] at hs; simp at hs
  | some o => simp [callDataHandler, ho]

theorem foldl_callDataHandler_settled (parse : List Char → Option Json)
    (cs : List (List Char)) (h : Handler) (hs : h.outcome.isSome) :
    cs.foldl (callDataHandler parse) h = h := by
  induction cs with
  | nil => rfl
  | cons c cs ih => rw [List.foldl_cons, callDataHandler_settled parse h c hs, ih]

theorem foldl_callDataHandler_pending (parse : List Char → Option Json)
    (cs : List (List Char)) (h : Handler) (hb : '\n' ∉ h.buf) (hp : h.outcome = none) :
    (cs.foldl (callDataHandler parse) h).outcome
      = scanLines parse h.reqId (completeLines (h.buf ++ cs.flatten)) := by
  induction cs generalizing h with
  | nil =>
    simp only [List.foldl_nil, List.flatten_nil, List.append_nil, hp]
    rw [completeLines, splitNl_of_no_nl _ hb]
    simp [initSegs, scanLines]
  | cons c cs ih =>
    have h2 : h.buf ++ (c :: cs).flatten = (h.buf ++ c) ++ cs.flatten := by
      rw [List.flatten_cons, ← List.append_assoc]
    cases hsc : scanLines parse h.reqId (completeLines (h.buf ++ c)) with
    | some o =>
      have h1 : callDataHandler parse h c = { h with outcome := some o } := by
        simp only [callDataHandler, hp]
        rw [hsc]
      rw [List.foldl_cons, h1, foldl_callDataHandler_settled parse cs _ (by simp)]
      rw [h2, completeLines_append (h.buf ++ c) cs.flatten,
        scanLines_append parse h.reqId (completeLines (h.buf ++ c)), hsc]
    | none =>
      have h1 : callDataHandler parse h c = { h with buf := lastSeg (splitNl (h.buf ++ c)) } := by
        simp only [callDataHandler, hp]
        rw [hsc]
      rw [List.foldl_cons, h1,
        ih { h with buf := lastSeg (splitNl (h.buf ++ c)) } (lastSeg_splitNl_no_nl _) hp]
      rw [h2, completeLines_append (h.buf ++ c) cs.flatten,
        scanLines_append parse h.reqId (completeLines (h.buf ++ c)), hsc]

theorem getElem?_modifyIdx {α : Type} (l : List α) (i j : Nat) (f : α → α) :
    (modifyIdx l i f)[j]? = if i = j then l[j]?.map f else l[j]? := by
  induction l generalizing i j with
  | nil => simp [modifyIdx]
  | cons a l ih =>
    cases i with
    | zero =>
      cases j with
      | zero => simp [modifyIdx]
      | succ j => simp [modifyIdx]
    | succ i =>
      cases j with
      | zero => simp [modifyIdx]
      | succ j => simp [modifyIdx, ih]

theorem stepEv_settled (parse : List Char → Option Json) (b : Bridge) (ev : Ev) (i : Nat)
    (o : CallOutcome) (h : outcomeAt b i = some (some o)) :
    outcomeAt (stepEv parse b ev) i = some (some o) := by
  cases hh : b.handlers[i]? with
  | none => rw [outcomeAt, hh] at h; simp at h
  | some hd =>
    rw [outcomeAt, hh] at h
    have ho : hd.outcome = some o := by simpa using h
    cases ev with
    | data c =>
      show ((b.handlers.map fun h => callDataHandler parse h c)[i]?).map Handler.outcome = _
      rw [List.getElem?_map, hh]
      simp [callDataHandler_settled parse hd c (by simp [ho]), ho]
    | timerFire k =>
      show ((modifyIdx b.handlers k (fireTimeout b.procAlive))[i]?).map Handler.outcome = _
      rw [getElem?_modifyIdx]
      by_cases hk : k = i
      · simp [hk, hh, fireTimeout, ho]
      · simp [hk, hh, ho]
    | close =>
      show (b.handlers[i]?).map Handler.outcome = _
      rw [hh]
      simp [ho]

theorem runEvs_settled (parse : List Char → Option Json) (b : Bridge) (evs : List Ev)
    (i : Nat) (o : CallOutcome) (h : outcomeAt b i = some (some o)) :
    outcomeAt (runEvs parse b evs) i = some (some o) := by
  induction evs generalizing b with
  | nil => exact h
  | cons e es ih => exact ih _ (stepEv_settled parse b e i o h)

theorem runData_handlers (parse : List Char → Option Json) (b : Bridge)
    (cs : List (List Char)) :
    (runData parse b cs).handlers = b.handlers.map (fun h => cs.foldl (callDataHandler parse) h) := by
  induction cs generalizing b with
  | nil => simp [runData, runEvs]
  | cons c cs ih =>
    have h1 : runData parse b (c :: cs) = runData parse (stepEv parse b (.data c)) cs := by
      simp [runData, runEvs]
    rw [h1, ih]
    show (b.handlers.map fun h => callDataHandler parse h c).map
        (fun h => cs.foldl (callDataHandler parse) h) = _
    rw [List.map_map]
    rfl

theorem initRun_poisoned (parse : List Char → Option Json) (bad : List Char)
    (hnl : '\n' ∉ bad) (hne : trimChars bad ≠ []) (hbp : parse (trimChars bad) = none) :
    ∀ (chunks : List (List Char)) (tail0 : List Char) (nb : Bool),
      chunks.foldl (initDataHandler parse) ⟨bad ++ '\n' :: tail0, none, true, nb⟩
        = ⟨bad ++ '\n' :: (tail0 ++ chunks.flatten), none, true, nb⟩
  | [], tail0, nb => by simp
  | c :: cs, tail0, nb => by
    rw [List.foldl_cons]
    have hstep : initDataHandler parse ⟨bad ++ '\n' :: tail0, none, true, nb⟩ c
        = ⟨bad ++ '\n' :: (tail0 ++ c), none, true, nb⟩ := by
      have hbuf : (bad ++ '\n' :: tail0) ++ c = bad ++ '\n' :: (tail0 ++ c) := by
        rw [List.append_assoc]
        rfl
      have hscan : initScan parse (splitNl (bad ++ '\n' :: (tail0 ++ c))) = false := by
        rw [splitNl_line_cons _ _ hnl]
        simp [initScan, hne, hbp]
      simp [initDataHandler, hbuf, hscan]
    rw [hstep, initRun_poisoned parse bad hnl hne hbp cs (tail0 ++ c) nb]
    simp [List.append_assoc]

theorem pollLoopFuel_notReady (alive ready : Nat → Bool) :
    ∀ (fuel k : Nat), (∀ j, k ≤ j → j ≤ k + fuel → alive j = true ∧ ready j = false) →
      pollLoopFuel alive ready k fuel = .notReady
  | 0, k, h => by
    have hk := h k le_rfl (by omega)
    simp [pollLoopFuel, hk.1, hk.2]
  | fuel + 1, k, h => by
    have hk := h k le_rfl (by omega)
    simp only [pollLoopFuel, hk.1, hk.2, Bool.not_true, Bool.false_eq_true, if_false]
    exact pollLoopFuel_notReady alive ready fuel (k + 1) (fun j h1 h2 => h j (by omega) (by omega))

theorem pollLoopFuel_crashed (alive ready : Nat → Bool) :
    ∀ (fuel k m : Nat), k ≤ m → m ≤ k + fuel →
      (∀ j, k ≤ j → j < m → alive j = true ∧ ready j = false) → alive m = false →
      pollLoopFuel alive ready k fuel = .crashed m
  | 0, k, m, h1, h2, h3, h4 => by
    have hkm : k = m := by omega
    subst hkm
    simp [pollLoopFuel, h4]
  | fuel + 1, k, m, h1, h2, h3, h4 => by
    by_cases hkm : k = m
    · subst hkm
      simp [pollLoopFuel, h4]
    · have hk := h3 k le_rfl (by omega)
      simp only [pollLoopFuel, hk.1, hk.2, Bool.not_true, Bool.false_eq_true, if_false]
      exact pollLoopFuel_crashed alive ready fuel (k + 1) m (by omega) (by omega)
        (fun j ha hb => h3 j (by omega) hb) h4

theorem pollLoopFuel_proceed_le (alive ready : Nat → Bool) :
    ∀ (fuel k n : Nat), pollLoopFuel alive ready k fuel = .proceed n → n ≤ k + fuel
  | 0, k, n, h => by
    cases ha : alive k <;> cases hr : ready k <;> simp [pollLoopFuel, ha, hr] at h <;> omega
  | fuel + 1, k, n, h => by
    cases ha : alive k with
    | false => simp [pollLoopFuel, ha] at h
    | true =>
      cases hr : ready k with
      | true => simp [pollLoopFuel, ha, hr] at h; omega
      | false =>
        simp only [pollLoopFuel, ha, hr, Bool.not_true, Bool.false_eq_true, if_false] at h
        have := pollLoopFuel_proceed_le alive ready fuel (k + 1) n h
        omega

theorem runSup_no_banner :
    ∀ (evs : List SupEv), (∀ s, SupEv.stderrData s ∈ evs → bannerMatch s = false) →
      evs.foldl supStep supState0 = supState0
  | [], _ => rfl
  | e :: es, hb => by
    rw [List.foldl_cons]
    have he : supStep supState0 e = supState0 := by
      cases e with
      | stderrData s => simp [supStep, hb s (by simp)]
      | stdoutData s => rfl
      | bannerFire ok => simp [supStep, supState0]
    rw [he]
    exact runSup_no_banner es (fun s hs => hb s (List.mem_cons_of_mem _ hs))

/-- Claim C1, counterexample.  The claim asserts that every call resolves with
the response frame whose id equals its own request id, citing both
`dataHandler` variants.  In the `src/app/src/main.js` variant two concurrent
pending calls with request ids 101 and 102 both resolve with the payload of
the single arriving frame, whose id is 102: call 101 receives another call's
response, refuting the claim for that cited variant. -/
theorem claim_C1_counterexample :
    (mainBridgeData testParse [mkMHandler 101, mkMHandler 102] (line102 ++ ['\n'])).map
        (fun h => (h.reqId, h.outcome))
      = [(101, some (.resolved (some (.num 5)))), (102, some (.resolved (some (.num 5))))]
    ∧ frameId frame102 = some 102
    ∧ testParse (line102 ++ ['\n']) = some frame102 := by
  refine ⟨rfl, rfl, rfl⟩

/-- Claim C1 (corrected), amended.  In the `part_001` variant the claim holds:
for any number of concurrently pending calls and any chunking of the stream,
each handler's settlement equals the settlement of the first frame whose id is
its own request id (so it never takes another call's response), and any
settled call stays settled with the same value under every further event. -/
theorem claim_C1_amended (parse : List Char → Option Json) (ids : List Int)
    (cs : List (List Char)) :
    (runData parse (mkBridge ids) cs).handlers.map Handler.outcome
        = ids.map (fun rid => (firstOwn parse rid cs.flatten).map settleOfFrame)
    ∧ (∀ (b : Bridge) (evs : List Ev) (i : Nat) (o : CallOutcome),
        outcomeAt b i = some (some o) → outcomeAt (runEvs parse b evs) i = some (some o)) := by
  constructor
  · rw [runData_handlers]
    have hfun : ∀ rid : Int,
        (cs.foldl (callDataHandler parse) (mkHandler rid)).outcome
          = (firstOwn parse rid cs.flatten).map settleOfFrame := by
      intro rid
      rw [foldl_callDataHandler_pending parse cs (mkHandler rid) (by simp [mkHandler]) rfl]
      rw [scanLines_eq_find]
      simp [firstOwn, allFrames, mkHandler]
    show ((ids.map mkHandler).map fun h => cs.foldl (callDataHandler parse) h).map
        Handler.outcome = _
    induction ids with
    | nil => rfl
    | cons a l ihl =>
      simp only [List.map_cons]
      rw [hfun a, ihl]
  · intro b evs i o h
    exact runEvs_settled parse b evs i o h

/-- Witness for the amended C1: two concurrent calls (ids 101, 102), the
response for 102 split across two chunks and arriving before the response for
101 — each caller receives its own result; and a settled call stays settled
across further data, timer and close events. -/
theorem claim_C1_amended_witness :
    (runData testParse (mkBridge [101, 102])
        [line102.take 7, line102.drop 7 ++ '\n' :: line101 ++ ['\n']]).handlers.map
        Handler.outcome
      = [some (.resolved (some (.num 7))), some (.resolved (some (.num 5)))]
    ∧ outcomeAt (runEvs testParse (Bridge.mk true [⟨101, [], some (.resolved none)⟩])
        [.data line101, .timerFire 0, .close]) 0 = some (some (.resolved none)) := by
  constructor
  · have h := (claim_C1_amended testParse [101, 102]
      [line102.take 7, line102.drop 7 ++ '\n' :: line101 ++ ['\n']]).1
    rw [h]
    rfl
  · exact (claim_C1_amended testParse [101, 102] []).2
      (Bridge.mk true [⟨101, [], some (.resolved none)⟩])
      [.data line101, .timerFire 0, .close] 0 (.resolved none) rfl

/-- Claim C2, counterexample.  The `close` handler of `part_001` only logs and
clears the handle: with two calls pending, after `close` both calls are still
registered and still pending, so the pending set is not emptied and no call is
failed with a `ProcessTerminatedError` (no such rejection exists in the code). -/
theorem claim_C2_counterexample :
    (stepEv testParse (mkBridge [101, 102]) .close).handlers = (mkBridge [101, 102]).handlers
    ∧ (stepEv testParse (mkBridge [101, 102]) .close).handlers.map Handler.outcome
        = [none, none]
    ∧ (stepEv testParse (mkBridge [101, 102]) .close).handlers ≠ [] := by
  refine ⟨rfl, rfl, ?_⟩
  simp [stepEv, mkBridge]

/-- Claim C2 (corrected), amended.  On process `close` the handle is cleared
(`mcpProcess = null`) but the pending calls are untouched: every pending call
stays registered and unsettled, and no call is ever failed with a
`ProcessTerminatedError` (no such rejection exists).  When a pending call's
timer later fires, its callback dereferences the nulled handle
(`mcpProcess.stdout`) and throws after `isComplete = true` but before
`reject`, so the call completes without its promise ever settling — it is not
even failed with `CallTimeoutError`. -/
theorem claim_C2_amended (parse : List Char → Option Json) (b : Bridge) (i : Nat)
    (hd : Handler) (hi : b.handlers[i]? = some hd) (hp : hd.outcome = none) :
    (stepEv parse b .close).handlers = b.handlers
    ∧ (stepEv parse b .close).procAlive = false
    ∧ (stepEv parse (stepEv parse b .close) (.timerFire i)).handlers[i]?
        = some { hd with outcome := some .timeoutCrashed }
    ∧ settlesCall .timeoutCrashed = false := by
  refine ⟨rfl, rfl, ?_, rfl⟩
  show (modifyIdx b.handlers i (fireTimeout false))[i]? = _
  rw [getElem?_modifyIdx]
  simp [hi, fireTimeout, hp]

/-- Witness for the amended C2: concrete bridge with two pending calls; after
`close`, the firing timer of call 0 crashes and settles nothing. -/
theorem claim_C2_amended_witness :
    (stepEv testParse (mkBridge [101, 102]) .close).procAlive = false
    ∧ (stepEv testParse (stepEv testParse (mkBridge [101, 102]) .close)
        (.timerFire 0)).handlers[0]? = some ⟨101, [], some .timeoutCrashed⟩
    ∧ settlesCall .timeoutCrashed = false := by
  have h := claim_C2_amended testParse (mkBridge [101, 102]) 0 (mkHandler 101) rfl rfl
  exact ⟨h.2.1, h.2.2.1, h.2.2.2⟩

/-- Claim C3, counterexample.  The claim asserts chunk-boundary invariance
and the trailing-fragment buffer invariant for both cited decoders.  The
`main.js` decoder violates both: a two-frame stream settles when fed in two
chunks but stays pending when the same bytes arrive as one chunk, and after
consuming the complete malformed line `oops` the buffer retains the whole
chunk even though the trailing incomplete fragment is empty. -/
theorem claim_C3_counterexample :
    (mainFold testParse (mkMHandler 7) [line102 ++ ['\n'], line101 ++ ['\n']]).outcome
        = some (.resolved (some (.num 5)))
    ∧ (mainCallDataHandler testParse (mkMHandler 7)
        ((line102 ++ ['\n']) ++ (line101 ++ ['\n']))).outcome = none
    ∧ (mainCallDataHandler testParse (mkMHandler 7) ("oops\n".data)).buf = "oops\n".data
    ∧ lastSeg (splitNl ("oops\n".data)) = []
    ∧ "oops\n".data ≠ ([] : List Char) := by
  refine ⟨rfl, rfl, rfl, rfl, by decide⟩

/-- Claim C3 (corrected), amended.  For the `part_001` per-line decoder the
claim holds in full: feeding any chunking of a byte stream yields exactly the
frames of one whole-stream pass, and after every pass the buffer is exactly
the newline-free fragment after the last newline. -/
theorem claim_C3_amended (parse : List Char → Option Json) (chunks : List (List Char)) :
    decodeStream parse chunks = decodePass parse [] chunks.flatten
    ∧ (decodeStream parse chunks).2 = lastSeg (splitNl chunks.flatten)
    ∧ '\n' ∉ (decodeStream parse chunks).2 := by
  have h := decodeStream_foldl parse chunks [] [] (by simp)
  have h1 : decodeStream parse chunks = decodePass parse [] chunks.flatten := by
    show chunks.foldl
        (fun acc c => (acc.1 ++ (decodePass parse acc.2 c).1, (decodePass parse acc.2 c).2))
        ([], []) = decodePass parse [] chunks.flatten
    rw [h]
    simp
  refine ⟨h1, ?_, ?_⟩
  · rw [h1]
    rfl
  · rw [h1]
    show '\n' ∉ lastSeg (splitNl ([] ++ chunks.flatten))
    exact lastSeg_splitNl_no_nl _

/-- Claim C4, counterexample.  A response to the reserved id 0 carrying an
`error` object still resolves the handshake and sends the completion
notification (`initializeMCPServer` never inspects `response.error`), where
the claim requires a transition to Failed. -/
theorem claim_C4_counterexample :
    (initDataHandler testParse initState0 (line0err ++ ['\n'])).promise = some .ready
    ∧ (initDataHandler testParse initState0 (line0err ++ ['\n'])).notified = true
    ∧ truthyOpt (frame0err.getField "error") = true
    ∧ frameId frame0err = some 0
    ∧ testParse (line0err ++ ['\n']) = some frame0err := by
  refine ⟨rfl, rfl, rfl, rfl, rfl⟩

/-- Claim C4 (corrected), amended.  The handshake resolves (and sends the
completion notification) on any response whose id is 0 — error-carrying or
not; only expiry of the fixed 10000 ms timeout produces the failure
transition. -/
theorem claim_C4_amended (parse : List Char → Option Json) (line : List Char) (j : Json)
    (rest : List Char) (h1 : '\n' ∉ line) (h2 : trimChars line ≠ [])
    (h3 : parse (trimChars line) = some j) (h4 : frameId j = some 0) :
    (initDataHandler parse initState0 (line ++ '\n' :: rest)).promise = some .ready
    ∧ (initDataHandler parse initState0 (line ++ '\n' :: rest)).notified = true
    ∧ (initTimeoutFire initState0).promise = some .timedOut
    ∧ handshakeTimeoutMs = 10000 := by
  have hscan : initScan parse (splitNl (line ++ '\n' :: rest)) = true := by
    rw [splitNl_line_cons _ _ h1]
    simp [initScan, h2, h3, h4]
  refine ⟨?_, ?_, rfl, rfl⟩
  · simp [initDataHandler, initState0, hscan]
  · simp [initDataHandler, initState0, hscan]

/-- Witness for the amended C4: the successful handshake response resolves,
and an expiring timeout on a pending handshake rejects. -/
theorem claim_C4_amended_witness :
    (initDataHandler testParse initState0 (line0ok ++ '\n' :: [])).promise = some .ready
    ∧ (initTimeoutFire initState0).promise = some .timedOut := by
  have h := claim_C4_amended testParse line0ok frame0ok []
    (by decide) (by decide) (by rfl) (by rfl)
  exact ⟨h.1, h.2.2.1⟩

/-- Claim C5, counterexample.  In `initializeMCPServer`'s handler the whole
line loop sits inside one `try` and the buffer is never pruned, so a malformed
complete line permanently aborts every scan: after `oops` arrives, a
subsequent well-formed id-0 line is never parsed and the handshake never
resolves, refuting the claim that a malformed segment does not prevent later
well-formed lines from being dispatched. -/
theorem claim_C5_counterexample :
    (initRun testParse ["oops\n".data, line0ok ++ ['\n']]).promise = none
    ∧ (initRun testParse ["oops\n".data, line0ok ++ ['\n']]).listenerOn = true
    ∧ testParse line0ok = some frame0ok
    ∧ frameId frame0ok = some 0
    ∧ testParse ("oops".data) = none := by
  refine ⟨rfl, rfl, rfl, rfl, rfl⟩

/-- Claim C5 (corrected), amended.  Malformed segments never raise and never
settle: in the `callMCPTool` handler a line whose parse fails is skipped and
the scan continues with the following lines exactly as if it were absent,
while in the handshake handler a malformed nonempty complete line at the head
of the (never pruned) buffer aborts every scan pass, leaving the promise
pending forever regardless of what arrives afterwards. -/
theorem claim_C5_amended (parse : List Char → Option Json) (rid : Int) (bad : List Char)
    (segs : List (List Char)) (chunks : List (List Char)) (tail0 : List Char) (nb : Bool)
    (hb : parse (trimChars bad) = none) (hnl : '\n' ∉ bad) (hne : trimChars bad ≠ []) :
    scanLines parse rid (bad :: segs) = scanLines parse rid segs
    ∧ (chunks.foldl (initDataHandler parse) ⟨bad ++ '\n' :: tail0, none, true, nb⟩).promise
        = none := by
  constructor
  · simp only [scanLines]
    by_cases ht : trimChars bad = []
    · simp [ht]
    · simp [ht, hb]
  · rw [initRun_poisoned parse bad hnl hne hb chunks tail0 nb]

/-- Witness for the amended C5: the malformed line `oops` is skipped by the
call handler's scan, and poisons the handshake handler's buffer for good. -/
theorem claim_C5_amended_witness :
    scanLines testParse 101 ("oops".data :: [line101]) = scanLines testParse 101 [line101]
    ∧ ([line0ok ++ ['\n']].foldl (initDataHandler testParse)
        ⟨"oops".data ++ '\n' :: [], none, true, false⟩).promise = none := by
  have h := claim_C5_amended testParse 101 ("oops".data) [line101] [line0ok ++ ['\n']] [] false
    rfl (by decide) (by decide)
  exact ⟨h.1, h.2⟩

/-- Claim C6, counterexample.  The id of `part_001` is `Date.now() +
Math.floor(Math.random() * 1000)`: two invocations at clock values 1000 and
999 with draws 1 and 2 (both in the permitted range `[0, 1000)`) — two
distinct schedulings — receive the same id, refuting uniqueness for every
pair of concurrent invocations and every scheduling. -/
theorem claim_C6_counterexample :
    genCallId 1000 1 = genCallId 999 2
    ∧ ((1000, 1) : Nat × Nat) ≠ (999, 2)
    ∧ (1 : Nat) < 1000 ∧ (2 : Nat) < 1000 := by
  refine ⟨rfl, by decide, by decide, by decide⟩

/-- Claim C6 (corrected), amended.  The generation scheme does not enforce
uniqueness among pending calls; when a collision occurs and two pending calls
share the same request id, a single response frame with that id settles both
calls with the same outcome. -/
theorem claim_C6_amended (parse : List Char → Option Json) (n : Int) (line : List Char)
    (j : Json) (rest : List Char) (hnl : '\n' ∉ line) (hne : trimChars line ≠ [])
    (hp : parse (trimChars line) = some j) (hid : frameId j = some n) :
    (stepEv parse ⟨true, [mkHandler n, mkHandler n]⟩ (.data (line ++ '\n' :: rest))).handlers.map
        Handler.outcome = [some (settleOfFrame j), some (settleOfFrame j)] := by
  have hscan : scanLines parse n (completeLines (line ++ '\n' :: rest)) = some (settleOfFrame j) := by
    rw [completeLines, splitNl_line_cons _ _ hnl]
    cases hs : splitNl rest with
    | nil => exact absurd hs (splitNl_ne_nil rest)
    | cons x xs =>
      rw [initSegs_cons_cons]
      simp [scanLines, hne, hp, hid]
  have hone : callDataHandler parse (mkHandler n) (line ++ '\n' :: rest)
      = { mkHandler n with outcome := some (settleOfFrame j) } := by
    have h0 : (mkHandler n).outcome = none := rfl
    simp only [callDataHandler, h0, mkHandler, List.nil_append]
    rw [hscan]
  show ([mkHandler n, mkHandler n].map
      (fun h => callDataHandler parse h (line ++ '\n' :: rest))).map Handler.outcome = _
  simp only [List.map_cons, List.map_nil, hone]

/-- Witness for the amended C6: two pending calls that both drew id 102; the
single id-102 response resolves both with result 5. -/
theorem claim_C6_amended_witness :
    (stepEv testParse ⟨true, [mkHandler 102, mkHandler 102]⟩
        (.data (line102 ++ '\n' :: []))).handlers.map Handler.outcome
      = [some (.resolved (some (.num 5))), some (.resolved (some (.num 5)))] := by
  have h := claim_C6_amended testParse 102 line102 frame102 []
    (by decide) (by decide) rfl rfl
  rw [h]
  rfl

/-- Claim C7 (confirmed).  A call issued before readiness polls with the fixed
interval and the fixed attempt bound (15 polls of 500 ms): if the server is
alive but never ready at any of the sampled instants, the call rejects with
the `NotReadyError` rejection and no request frame is written to stdin; and
whenever the prologue does proceed to send, it did so within the bound. -/
theorem claim_C7_notReady (alive ready : Nat → Bool)
    (halive : ∀ k, k ≤ maxPollAttempts → alive k = true)
    (hready : ∀ k, k ≤ maxPollAttempts → ready k = false) :
    callStart alive ready = .notReady
    ∧ sendsRequest (callStart alive ready) = false
    ∧ (∀ (a r : Nat → Bool) (n : Nat), callStart a r = .proceed n → n ≤ maxPollAttempts) := by
  have h0 : alive 0 = true := halive 0 (by omega)
  have hmain : callStart alive ready = .notReady := by
    simp only [callStart, h0, Bool.not_true, Bool.false_eq_true, if_false]
    exact pollLoopFuel_notReady alive ready maxPollAttempts 0
      (fun j h1 h2 => ⟨halive j (by simpa using h2), hready j (by simpa using h2)⟩)
  refine ⟨hmain, by rw [hmain]; rfl, ?_⟩
  intro a r n hpr
  simp only [callStart] at hpr
  cases ha0 : a 0 with
  | false => rw [ha0] at hpr; simp at hpr
  | true =>
    rw [ha0] at hpr
    simp only [Bool.not_true, Bool.false_eq_true, if_false] at hpr
    have := pollLoopFuel_proceed_le a r maxPollAttempts 0 n hpr
    simpa using this

/-- Witness for C7: a provider that stays alive but never becomes ready. -/
theorem claim_C7_notReady_witness :
    callStart (fun _ => true) (fun _ => false) = .notReady
    ∧ sendsRequest (callStart (fun _ => true) (fun _ => false)) = false := by
  have h := claim_C7_notReady (fun _ => true) (fun _ => false)
    (fun k _ => rfl) (fun k _ => rfl)
  exact ⟨h.1, h.2.1⟩

/-- Claim C8, counterexample.  The claim requires the timeout to remove the
call's pending entry including its response listener, citing both variants.
In the `main.js` variant the timeout callback only rejects: the stdout
listener stays registered after the timeout fires. -/
theorem claim_C8_counterexample :
    (mainTimeoutFire (mkMHandler 45)).outcome = some .rejectedTimeout
    ∧ (mainTimeoutFire (mkMHandler 45)).listenerOn = true := ⟨rfl, rfl⟩

/-- Claim C8 (corrected), amended.  In the `part_001` variant, while the
process handle is live, the claim holds: a firing timer fails its own pending
call with the `CallTimeoutError` rejection and completes it (removing its
listener), every other call is left exactly as it was, and any amount of
late-arriving data — including a response carrying the timed-out call's id —
leaves the timed-out call unchanged.  In the `main.js` variant the listener is
not removed (counterexample); and once `close` has nulled the handle the
`part_001` timeout callback itself crashes before rejecting (see the amended
C2). -/
theorem claim_C8_amended (parse : List Char → Option Json) (b : Bridge) (i : Nat)
    (hd : Handler) (cs : List (List Char)) (halive : b.procAlive = true)
    (hi : b.handlers[i]? = some hd) (hp : hd.outcome = none) :
    (stepEv parse b (.timerFire i)).handlers[i]?
        = some { hd with outcome := some .rejectedTimeout }
    ∧ (∀ j, j ≠ i → (stepEv parse b (.timerFire i)).handlers[j]? = b.handlers[j]?)
    ∧ (runData parse (stepEv parse b (.timerFire i)) cs).handlers[i]?
        = some { hd with outcome := some .rejectedTimeout } := by
  have h1 : (stepEv parse b (.timerFire i)).handlers[i]?
      = some { hd with outcome := some .rejectedTimeout } := by
    show (modifyIdx b.handlers i (fireTimeout b.procAlive))[i]? = _
    rw [getElem?_modifyIdx]
    simp [hi, fireTimeout, hp, halive]
  refine ⟨h1, ?_, ?_⟩
  · intro j hj
    show (modifyIdx b.handlers i (fireTimeout b.procAlive))[j]? = _
    rw [getElem?_modifyIdx]
    rw [if_neg (fun hc => hj hc.symm)]
  · rw [runData_handlers]
    rw [List.getElem?_map, h1]
    show some (cs.foldl (callDataHandler parse) { hd with outcome := some .rejectedTimeout })
      = some { hd with outcome := some .rejectedTimeout }
    rw [foldl_callDataHandler_settled parse cs _ (by simp)]

/-- Witness for the amended C8: call 0 (id 101) times out while call 1
(id 102) is pending; call 1 is untouched, and a late id-101 response arriving
afterwards leaves the timed-out call unchanged. -/
theorem claim_C8_amended_witness :
    (stepEv testParse (mkBridge [101, 102]) (.timerFire 0)).handlers[0]?
        = some ⟨101, [], some .rejectedTimeout⟩
    ∧ (stepEv testParse (mkBridge [101, 102]) (.timerFire 0)).handlers[1]?
        = (mkBridge [101, 102]).handlers[1]?
    ∧ (runData testParse (stepEv testParse (mkBridge [101, 102]) (.timerFire 0))
        [line101 ++ ['\n']]).handlers[0]? = some ⟨101, [], some .rejectedTimeout⟩ := by
  have h := claim_C8_amended testParse (mkBridge [101, 102]) 0 (mkHandler 101)
    [line101 ++ ['\n']] rfl rfl rfl
  exact ⟨h.1, h.2.1 1 (by decide), h.2.2⟩

/-- Claim C9 (confirmed).  If the provider process exits (clearing the
module-level handle) while a caller sits in `callMCPTool`'s readiness-polling
loop, the next poll calls `isReady()` on the cleared handle: the prologue
ends in the `crashed` state modelling the `TypeError` escaping the `async`
promise executor — the promise never settles and no request is sent. -/
theorem claim_C9_crash (alive ready : Nat → Bool) (k : Nat) (h0 : alive 0 = true)
    (hk : k ≤ maxPollAttempts) (hbefore : ∀ j, j < k → alive j = true ∧ ready j = false)
    (hdead : alive k = false) :
    callStart alive ready = .crashed k
    ∧ startSettles (callStart alive ready) = false
    ∧ sendsRequest (callStart alive ready) = false := by
  have hmain : callStart alive ready = .crashed k := by
    simp only [callStart, h0, Bool.not_true, Bool.false_eq_true, if_false]
    exact pollLoopFuel_crashed alive ready maxPollAttempts 0 k (by omega)
      (by simpa using hk) (fun j _ hb => hbefore j hb) hdead
  exact ⟨hmain, by rw [hmain]; rfl, by rw [hmain]; rfl⟩

/-- Witness for C9: the process dies between the third and fourth poll; the
fourth poll crashes and the caller's promise never settles. -/
theorem claim_C9_crash_witness :
    callStart (fun j => decide (j < 3)) (fun _ => false) = .crashed 3
    ∧ startSettles (callStart (fun j => decide (j < 3)) (fun _ => false)) = false := by
  have h := claim_C9_crash (fun j => decide (j < 3)) (fun _ => false) 3 (by decide)
    (by decide) (fun j hj => ⟨by simp [hj], rfl⟩) (by decide)
  exact ⟨h.1, h.2.1⟩

/-- Claim C10 (confirmed).  `serverReady` is set only through the stderr
banner path: on any event trace in which no stderr chunk matches the banner
test — stdout data, including handshake responses, affects nothing — the
ready flag stays false at every point, and a `callMCPTool` polling that flag
rejects with the `NotReadyError` rejection after the bound, sending nothing. -/
theorem claim_C10_banner (evs : List SupEv)
    (hb : ∀ s, SupEv.stderrData s ∈ evs → bannerMatch s = false) :
    (∀ n, (runSup (List.take n evs)).serverReady = false)
    ∧ callStart (fun _ => true) (fun n => (runSup (List.take n evs)).serverReady) = .notReady
    ∧ sendsRequest (callStart (fun _ => true)
        (fun n => (runSup (List.take n evs)).serverReady)) = false := by
  have hall : ∀ n, runSup (List.take n evs) = supState0 := by
    intro n
    exact runSup_no_banner (List.take n evs) (fun s hs => hb s (List.take_subset n evs hs))
  have hready : ∀ n, (runSup (List.take n evs)).serverReady = false := by
    intro n
    rw [hall n]
    rfl
  have hmain : callStart (fun _ => true)
      (fun n => (runSup (List.take n evs)).serverReady) = .notReady := by
    simp only [callStart, Bool.not_true, Bool.false_eq_true, if_false]
    exact pollLoopFuel_notReady _ _ maxPollAttempts 0 (fun j _ _ => ⟨rfl, hready j⟩)
  exact ⟨hready, hmain, by rw [hmain]; rfl⟩

/-- Witness for C10: a trace with a non-matching stderr chunk, a handshake
response on stdout, and a (vacuous) banner callback — the bridge never
becomes ready and a call fails after its polling bound. -/
theorem claim_C10_banner_witness :
    (runSup [SupEv.stderrData ("INFO starting".data), SupEv.stdoutData (line0ok ++ ['\n']),
        SupEv.bannerFire true]).serverReady = false
    ∧ callStart (fun _ => true) (fun n => (runSup (List.take n
        [SupEv.stderrData ("INFO starting".data), SupEv.stdoutData (line0ok ++ ['\n']),
          SupEv.bannerFire true])).serverReady) = .notReady := by
  have hb : ∀ s, SupEv.stderrData s ∈ [SupEv.stderrData ("INFO starting".data),
      SupEv.stdoutData (line0ok ++ ['\n']), SupEv.bannerFire true] → bannerMatch s = false := by
    intro s hs
    simp only [List.mem_cons, List.not_mem_nil, or_false] at hs
    rcases hs with hs | hs | hs
    · cases hs
      decide
    · cases hs
    · cases hs
  have h := claim_C10_banner _ hb
  exact ⟨h.1 3, h.2.1⟩
